import Mathlib

/-!
# waygitcpp: the command layer of `src/main.cpp`

A shallow embedding of the commands of `src/main.cpp` (log, ls-tree, checkout,
tag, commit, and the top-level `main`) and of the object factory declared in
`src/git_objects/GitObjectsFactory.hpp`.

Conventions:
* `std::string`, `ObjectData` and `std::filesystem::path` are lists of characters (`Str`);
  a byte is a character, the zero byte is `Char.ofNat 0`;
* paths are resolved component by component in a file system without symbolic links;
* a declaration that `src/` uses but does not hold is a parameter, or is modelled from the
  specification under a comment that says so;
* standard output is the list of the chunks streamed to `std::cout`;
* a C++ exception is a value of `GitError`; a function that may throw returns `Except`
  or a `Status`;
* recursion through the object store or the file system carries a fuel argument.
-/

namespace Waygit

/-- A `std::string` (also used for `ObjectData` and for `std::filesystem::path`). -/
abbrev Str := List Char

/-- The zero byte. -/
def NUL : Char := Char.ofNat 0

/-- The newline character. -/
def NL : Char := Char.ofNat 10

/-- The tab character. -/
def TAB : Char := Char.ofNat 9

/-- The exceptions the commands can raise. `runtime` is a `std::runtime_error` (what
`GENERATE_EXCEPTION` and the file-system library throw); `outOfRange` is the
`std::out_of_range` (a `std::logic_error`) thrown by `std::string::substr`. -/
inductive GitError where
  | runtime (what : Str)
  | outOfRange
  deriving DecidableEq, Repr

deriving instance DecidableEq for Except

/-! ## `std::string` primitives -/

/-- Left-to-right scan behind `find_last_of`: `i` is the index of the head, `acc` the last hit so far. -/
def findLastOfAux (c : Char) : Str → Nat → Option Nat → Option Nat
  | [], _, acc => acc
  | x :: xs, i, acc => findLastOfAux c xs (i + 1) (if x = c then some i else acc)

/-- The call `s.find_last_of(c)`: index of the last occurrence of `c`, `none` for `npos`. -/
def findLastOf (s : Str) (c : Char) : Option Nat :=
  findLastOfAux c s 0 none

/-- The call `s.substr(pos)`: throws `std::out_of_range` when `pos > s.size()`. -/
def substrFrom (s : Str) (pos : Nat) : Except GitError Str :=
  if pos > s.length then .error .outOfRange else .ok (s.drop pos)

/-- The call `s.substr(pos, n)`: throws `std::out_of_range` when `pos > s.size()`. -/
def substr (s : Str) (pos n : Nat) : Except GitError Str :=
  if pos > s.length then .error .outOfRange else .ok ((s.drop pos).take n)

/-- Conversion of a `const char*` to a string: the characters before the first zero byte.
This is what `std::string(const char*)` and `operator<<(ostream&, const char*)` read. -/
def cstr (s : Str) : Str :=
  s.takeWhile (fun c => c != NUL)

/-- The message of the exception raised at `main.cpp:45` for the author line `author`. -/
def malformedDate (author : Str) : Str :=
  "Malformed date in ".toList ++ author ++
    ", date should consist of time since epoch followed by UTC offset".toList

/-- Lines 43-52 of `displayLog`, up to the call of `decodeDateIn`: the author shown and
the text handed to `Utilities::decodeDateIn`. -/
def splitAuthor (author : Str) : Except GitError (Str × Str) :=
  match findLastOf author '>' with
  | none => .error (.runtime (malformedDate author))
  | some authorEnds =>
    match substr author 0 (authorEnds + 1) with
    | .error e => .error e
    | .ok shown =>
      match substrFrom author (authorEnds + 2) with
      | .error e => .error e
      | .ok dateText => .ok (shown, dateText)

/-! ## Object model -/

/-- An object hash; `data()` is its 40-character hexadecimal text. -/
structure GitHash where
  data : Str
  deriving DecidableEq, Repr

/-- One entry of a tree object (`GitTreeLeaf`). -/
structure GitTreeLeaf where
  fileMode : Str
  filePath : Str
  hash : GitHash
  deriving DecidableEq, Repr

/-- The fields of `CommitMessage` that `main.cpp` reads. -/
structure CommitMessage where
  tree : Str
  parent : Str
  author : Str
  message : Str
  deriving DecidableEq, Repr

/-- The record `TagMessage`, as initialised at `main.cpp:169`. -/
structure TagMessage where
  object : Str
  type : Str
  tag : Str
  tagger : Str
  gpgsig : Str
  message : Str
  deriving DecidableEq, Repr

/-- The four object variants. A blob carries its payload, which is also what
`GitBlob::serialize()` returns. -/
inductive GitObject where
  | blob (payload : Str)
  | tree (leaves : List GitTreeLeaf)
  | commit (msg : CommitMessage)
  | tag (msg : TagMessage)
  deriving DecidableEq, Repr

/-- The method `GitObject::format()`. -/
def GitObject.format : GitObject → Str
  | .blob _ => "blob".toList
  | .tree _ => "tree".toList
  | .commit _ => "commit".toList
  | .tag _ => "tag".toList

/-- The object store: the stored objects, keyed by hash. -/
abbrev Store := List (GitHash × GitObject)

/-- Lookup of a hash in the store. -/
def Store.find (store : Store) (h : GitHash) : Option GitObject :=
  match store with
  | [] => none
  | (k, o) :: rest => if k = h then some o else Store.find rest h

/-- The message of the exception raised when a hash has no stored object. -/
def objectNotFound (h : GitHash) : Str :=
  "Object not found: ".toList ++ h.data

/-- Modelled from the spec: `GitObjectFactory::read` is only declared in
`GitObjectsFactory.hpp`. It returns the decoded object stored under the hash and fails
with `ObjectNotFound` when the hash has no stored object. -/
def read (store : Store) (h : GitHash) : Except GitError GitObject :=
  match store.find h with
  | none => .error (.runtime (objectNotFound h))
  | some o => .ok o

/-! ## Running a command -/

/-- How a command stopped. `assertFailed` is the failed `assert` of `displayLog`, `undefined`
undefined behaviour (the use of a tree pointer obtained by casting an object that is
not a tree, an index past the end of the argument vector), `outOfFuel`
the exhaustion of the fuel of the model. -/
inductive Status where
  | done
  | threw (e : GitError)
  | assertFailed
  | undefined
  | outOfFuel
  deriving DecidableEq, Repr

/-- The result of running a printing command: everything streamed to standard output,
and how the command stopped. -/
structure Run where
  out : Str
  status : Status
  deriving DecidableEq, Repr

/-! ## `displayLog` -/

/-- The four lines `displayLog` streams for one commit (`main.cpp:53-56`). -/
def entryText (hash : GitHash) (author date message : Str) : Str :=
  "commit: ".toList ++ cstr hash.data ++ [NL] ++
  "Author: ".toList ++ author ++ [NL] ++
  "Date:   ".toList ++ date ++ [NL] ++
  [NL, TAB] ++ message ++ [NL]

/-- Lines 41-56 of `displayLog` for the commit `cm` read from `hash`: the text streamed,
or the exception raised before anything is streamed. `decodeDateIn` is
`Utilities::decodeDateIn`. -/
def renderCommit (decodeDateIn : Str → Except GitError Str) (hash : GitHash)
    (cm : CommitMessage) : Except GitError Str :=
  match splitAuthor cm.author with
  | .error e => .error e
  | .ok (author, dateText) =>
    match decodeDateIn dateText with
    | .error e => .error e
    | .ok date => .ok (entryText hash author date cm.message)

/-- The function `displayLog` (`main.cpp:35-64`), `out` being what was streamed before the call. -/
def displayLog (decodeDateIn : Str → Except GitError Str) (store : Store) :
    Nat → GitHash → Str → Run
  | 0, _, out => ⟨out, .outOfFuel⟩
  | fuel + 1, hash, out =>
    match read store hash with
    | .error e => ⟨out, .threw e⟩
    | .ok (.commit cm) =>
      match renderCommit decodeDateIn hash cm with
      | .error e => ⟨out, .threw e⟩
      | .ok text =>
        if cm.parent.isEmpty then ⟨out ++ text, .done⟩
        else displayLog decodeDateIn store fuel ⟨cm.parent⟩ (out ++ text)
    | .ok _ => ⟨out, .assertFailed⟩

/-- The commits reached from `h` by following the parent field, in order, down to a
commit with an empty parent. -/
inductive ParentChain (store : Store) : GitHash → List (GitHash × CommitMessage) → Prop where
  | root (h : GitHash) (cm : CommitMessage) :
      read store h = .ok (.commit cm) → cm.parent = [] → ParentChain store h [(h, cm)]
  | step (h : GitHash) (cm : CommitMessage) (cs : List (GitHash × CommitMessage)) :
      read store h = .ok (.commit cm) → cm.parent ≠ [] →
      ParentChain store ⟨cm.parent⟩ cs → ParentChain store h ((h, cm) :: cs)

/-! ## Paths -/

/-- The call `p.filename()`: what follows the last separator (all of `p` without one). -/
def filename (p : Str) : Str :=
  match findLastOf p '/' with
  | none => p
  | some i => p.drop (i + 1)

/-- The path `p / q` (POSIX): `q` when `q` is absolute; otherwise `q` appended to `p`,
after a separator when `p` has a filename. -/
def pathJoin (p q : Str) : Str :=
  if q.head? = some '/' then q
  else if p = [] ∨ p.getLast? = some '/' then p ++ q
  else p ++ ['/'] ++ q

/-! ## `listTree` -/

/-- The line `listTree` streams for an entry (`main.cpp:80-83`). -/
def leafLine (parentDir : Str) (leaf : GitTreeLeaf) (childFormat : Str) : Str :=
  leaf.fileMode ++ [' '] ++ childFormat ++ [' '] ++ leaf.hash.data ++ [TAB] ++
    pathJoin parentDir leaf.filePath ++ [NL]

/-- The loop of `listTree` (`main.cpp:72-89`); `recur h dir out` is the recursive call
`listTree(h, dir, recursive)`. A `std::runtime_error` raised in the body of the loop is
caught there and its message streamed; anything else leaves the loop. -/
def listLeaves (store : Store) (recur : GitHash → Str → Str → Run) (parentDir : Str)
    (recursive : Bool) : List GitTreeLeaf → Str → Run
  | [], out => ⟨out, .done⟩
  | leaf :: rest, out =>
    match read store leaf.hash with
    | .error (.runtime what) =>
      listLeaves store recur parentDir recursive rest (out ++ what ++ [NL])
    | .error e => ⟨out, .threw e⟩
    | .ok child =>
      if recursive ∧ child.format = "tree".toList then
        match recur leaf.hash (filename leaf.filePath) out with
        | ⟨out1, .done⟩ => listLeaves store recur parentDir recursive rest out1
        | ⟨out1, .threw (.runtime what)⟩ =>
          listLeaves store recur parentDir recursive rest (out1 ++ what ++ [NL])
        | r => r
      else
        listLeaves store recur parentDir recursive rest
          (out ++ leafLine parentDir leaf child.format)

/-- The function `listTree` (`main.cpp:66-90`). -/
def listTree (store : Store) : Nat → GitHash → Str → Bool → Str → Run
  | 0, _, _, _, out => ⟨out, .outOfFuel⟩
  | fuel + 1, objectHash, parentDir, recursive, out =>
    match read store objectHash with
    | .error e => ⟨out, .threw e⟩
    | .ok (.tree leaves) =>
      listLeaves store (fun h dir o => listTree store fuel h dir recursive o)
        parentDir recursive leaves out
    | .ok _ => ⟨out, .undefined⟩



/-! ## The file system -/

/-- What a path names: a regular file with its bytes, or a directory. -/
inductive Node where
  | file (content : Str)
  | dir
  deriving DecidableEq, Repr

/-- A location in the file system: the names on the way from the root. -/
abbrev Key := List Str

/-- The file system: the working directory of the process, and what each location other
than the root holds. The root is a directory. -/
structure FS where
  cwd : Key
  nodes : List (Key × Node)
  deriving DecidableEq, Repr

/-- What the table of `nodes` holds at a location. -/
def nodeOf : List (Key × Node) → Key → Option Node
  | [], _ => none
  | (k, n) :: rest, key => if k = key then some n else nodeOf rest key

/-- Creation or replacement of what a location holds. -/
def putNode : List (Key × Node) → Key → Node → List (Key × Node)
  | [], key, n => [(key, n)]
  | (k, m) :: rest, key, n =>
    if k = key then (k, n) :: rest else (k, m) :: putNode rest key n

/-- What a location names: the root is a directory. -/
def FS.nodeAt (fs : FS) (k : Key) : Option Node :=
  if k = [] then some .dir else nodeOf fs.nodes k

/-- Whether a location is a directory. -/
def FS.isDirAt (fs : FS) (k : Key) : Bool := fs.nodeAt k == some .dir

/-- The components of a path: the pieces between separators (`acc` is the piece being
read, reversed). A leading, doubled or trailing separator gives an empty piece. -/
def splitPathAux : Str → Str → List Str
  | [], acc => [acc.reverse]
  | c :: cs, acc =>
    if c = '/' then acc.reverse :: splitPathAux cs [] else splitPathAux cs (c :: acc)

/-- The components of a path. -/
def splitPath (p : Str) : List Str := splitPathAux p []

/-- Where the resolution of a path starts: the root for an absolute path, the working
directory otherwise. -/
def FS.start (fs : FS) (p : Str) : Key :=
  if p.head? = some '/' then [] else fs.cwd

/-- The location a path spells, component by component, with no look at the file
system: an empty or `.` component stays, `..` goes up, a name goes down. -/
def spell : Key → List Str → Key
  | cur, [] => cur
  | cur, c :: cs =>
    if c = [] ∨ c = ".".toList then spell cur cs
    else if c = "..".toList then spell cur.dropLast cs
    else spell (cur ++ [c]) cs

/-- Path resolution (no symbolic links): as `spell`, but every component, the empty piece
after a trailing separator included, is looked up in a directory; the resolution fails
when the place it is looked up in is not a directory. -/
def walk (fs : FS) : Key → List Str → Option Key
  | cur, [] => some cur
  | cur, c :: cs =>
    if !fs.isDirAt cur then none
    else if c = [] ∨ c = ".".toList then walk fs cur cs
    else if c = "..".toList then walk fs cur.dropLast cs
    else walk fs (cur ++ [c]) cs

/-- The location that the path `p` resolves to; the empty path resolves to nothing. -/
def FS.resolve (fs : FS) (p : Str) : Option Key :=
  if p = [] then none else walk fs (fs.start p) (splitPath p)

/-- The call `std::filesystem::status(p)`: what the path names, if it resolves and exists. -/
def FS.stat (fs : FS) (p : Str) : Option Node :=
  (fs.resolve p).bind fs.nodeAt

/-- What is stored at the location the path `p` spells. -/
def FS.find (fs : FS) (p : Str) : Option Node :=
  nodeOf fs.nodes (spell (fs.start p) (splitPath p))

/-- Creation or replacement of what is stored at the location the path `p` spells. -/
def FS.set (fs : FS) (p : Str) (n : Node) : FS :=
  ⟨fs.cwd, putNode fs.nodes (spell (fs.start p) (splitPath p)) n⟩

/-- The call `std::filesystem::exists(p)`. -/
def fsExists (fs : FS) (p : Str) : Bool := (fs.stat p).isSome

/-- The call `std::filesystem::is_directory(p)`. -/
def isDirectory (fs : FS) (p : Str) : Bool := fs.stat p == some .dir

/-- Whether the location `k2` lies below the location `k`. -/
def isBelow (k k2 : Key) : Bool := k.isPrefixOf k2 && k2 != k

/-- The call `std::filesystem::is_empty(p)` for a path that exists: a directory with
nothing below it, or a file of size zero. -/
def isEmpty (fs : FS) (p : Str) : Bool :=
  match fs.resolve p with
  | none => false
  | some k =>
    match fs.nodeAt k with
    | some (.file content) => content.isEmpty
    | _ => fs.nodes.all (fun e => !isBelow k e.1)

/-- The message of a `std::filesystem::filesystem_error` as the handlers of `main.cpp` see
it: they catch `std::runtime_error` by value, which keeps the message of the
`std::system_error` base, the operation and the text of the error code. -/
def cannotCreateDirectories (code : Str) : Str :=
  "cannot create directories: ".toList ++ code

/-- The creation of the directories along the components of a path, from the location
`cur` on: every component is looked up in a directory, a name that is missing is created
as a directory, and a name that is a regular file is an error. -/
def mkdirs (fs : FS) : Key → List Str → Except GitError FS
  | cur, [] =>
    if fs.isDirAt cur then .ok fs
    else .error (.runtime (cannotCreateDirectories "Not a directory".toList))
  | cur, c :: cs =>
    if !fs.isDirAt cur then
      .error (.runtime (cannotCreateDirectories "Not a directory".toList))
    else if c = [] ∨ c = ".".toList then mkdirs fs cur cs
    else if c = "..".toList then mkdirs fs cur.dropLast cs
    else
      match nodeOf fs.nodes (cur ++ [c]) with
      | some (.file _) => .error (.runtime (cannotCreateDirectories "Not a directory".toList))
      | some .dir => mkdirs fs (cur ++ [c]) cs
      | none => mkdirs ⟨fs.cwd, putNode fs.nodes (cur ++ [c]) .dir⟩ (cur ++ [c]) cs

/-- The call `std::filesystem::create_directories(p)`: creates `p` and its missing ancestors. -/
def createDirectories (fs : FS) (p : Str) : Except GitError FS :=
  if p = [] then .error (.runtime (cannotCreateDirectories "No such file or directory".toList))
  else mkdirs fs (fs.start p) (splitPath p)

/-- Modelled from the spec: `Utilities::writeToFile(path, content)` is not in `src/`; it
creates or replaces the file at `path` so that it holds exactly the string it is given
(this is how a reference file gets its content `<40-hex-hash>\n`). -/
def writeToFile (fs : FS) (path content : Str) : FS :=
  fs.set path (.file content)

/-- Modelled from the spec: `Utilities::readFile(path)` is not in `src/`; it returns the
bytes of the regular file at `path`. -/
def readFile (fs : FS) (path : Str) : Except GitError Str :=
  match fs.stat path with
  | some (.file content) => .ok content
  | _ => .error (.runtime ("Cannot read file: ".toList ++ path))

/-- Modelled from the spec: `ObjectData` is declared in `GitObject.hpp`, which is not in
`src/`. The spec makes the payload of a blob a byte sequence with no internal structure
that is read back exactly; `data()` of the `ObjectData` that `serialize()` returns is
modelled as all of its bytes. -/
def objectData (serialized : Str) : Str := serialized

/-- The result of a command that writes to the file system. -/
structure FsRun where
  fs : FS
  status : Status
  deriving DecidableEq, Repr

/-! ## `treeCheckout` and `checkout` -/

/-- The loop of `treeCheckout` (`main.cpp:96-108`); `recur o d fs` is the recursive call
`treeCheckout(o, d)`. The blob branch hands `serialize().data()` to `writeToFile`; the
serialization of a blob is its payload. -/
def checkoutLeaves (store : Store) (recur : GitObject → Str → FS → FsRun)
    (checkoutDirectory : Str) : List GitTreeLeaf → FS → FsRun
  | [], fs => ⟨fs, .done⟩
  | leaf :: rest, fs =>
    match read store leaf.hash with
    | .error e => ⟨fs, .threw e⟩
    | .ok childObject =>
      let destination := pathJoin checkoutDirectory leaf.filePath
      match childObject with
      | .tree _ =>
        match createDirectories fs destination with
        | .error e => ⟨fs, .threw e⟩
        | .ok fs1 =>
          match recur childObject destination fs1 with
          | ⟨fs2, .done⟩ => checkoutLeaves store recur checkoutDirectory rest fs2
          | r => r
      | .blob payload =>
        checkoutLeaves store recur checkoutDirectory rest
          (writeToFile fs destination (objectData payload))
      | _ => checkoutLeaves store recur checkoutDirectory rest fs

/-- The function `treeCheckout` (`main.cpp:92-109`). -/
def treeCheckout (store : Store) : Nat → GitObject → Str → FS → FsRun
  | 0, _, _, fs => ⟨fs, .outOfFuel⟩
  | fuel + 1, object, checkoutDirectory, fs =>
    match object with
    | .tree leaves =>
      checkoutLeaves store (fun o d f => treeCheckout store fuel o d f)
        checkoutDirectory leaves fs
    | _ => ⟨fs, .undefined⟩

/-- The message raised at `main.cpp:119`. -/
def notADirectory (dir : Str) : Str := dir ++ ", is not a directory!".toList

/-- The message raised at `main.cpp:123`. -/
def notAnEmptyDirectory (dir : Str) : Str :=
  dir ++ ", is not an empty directory. Currently checkout only works with the empty directories".toList

/-- Lines 117-131 of `checkout`: the test of the destination. -/
def prepareDestination (fs : FS) (checkoutDirectory : Str) : Except GitError FS :=
  if fsExists fs checkoutDirectory then
    if !isDirectory fs checkoutDirectory then
      .error (.runtime (notADirectory checkoutDirectory))
    else if !isEmpty fs checkoutDirectory then
      .error (.runtime (notAnEmptyDirectory checkoutDirectory))
    else .ok fs
  else createDirectories fs checkoutDirectory

/-- Lines 133-141 of `checkout`: the checkout of the object into the destination. -/
def checkoutObject (store : Store) (fuel : Nat) (gitObject : GitObject)
    (checkoutDirectory : Str) (fs : FS) : FsRun :=
  match gitObject with
  | .commit cm =>
    match read store ⟨cm.tree⟩ with
    | .error e => ⟨fs, .threw e⟩
    | .ok tree => treeCheckout store fuel tree checkoutDirectory fs
  | .tree _ => treeCheckout store fuel gitObject checkoutDirectory fs
  | _ => ⟨fs, .done⟩

/-- The function `checkout` (`main.cpp:111-142`); `findObject` is `GitObject::findObject`
without a format. -/
def checkout (findObject : Str → Except GitError GitHash) (store : Store) (fuel : Nat)
    (commit : GitHash) (checkoutDirectory : Str) (fs : FS) : FsRun :=
  match findObject commit.data with
  | .error e => ⟨fs, .threw e⟩
  | .ok found =>
    match read store found with
    | .error e => ⟨fs, .threw e⟩
    | .ok gitObject =>
      match prepareDestination fs checkoutDirectory with
      | .error e => ⟨fs, .threw e⟩
      | .ok fs1 => checkoutObject store fuel gitObject checkoutDirectory fs1

/-! ## The object factory and `GitObject::write` -/

/-- The `deserialize` methods of `GitTree`, `GitCommit` and `GitTag`, which are not in
`src/`: each decodes a payload or raises. (`GitBlob::deserialize` keeps the payload as it
is: a blob has no internal structure.) -/
structure Decoders where
  tree : Str → Except GitError (List GitTreeLeaf)
  commit : Str → Except GitError CommitMessage
  tag : Str → Except GitError TagMessage

/-- The template `GitObjectFactory::createObject<T>` (`GitObjectsFactory.hpp:15-22`): a new
object of class `T` (here `wrap`), filled by `T::deserialize`. -/
def createObject {α : Type} (deserialize : Str → Except GitError α) (wrap : α → GitObject)
    (data : Str) : Except GitError GitObject :=
  match deserialize data with
  | .error e => .error e
  | .ok x => .ok (wrap x)

/-- The message of the unknown-format error. -/
def unknownObjectFormat (format : Str) : Str := "Unknown object format: ".toList ++ format

/-- Modelled from the spec: `GitObjectFactory::create` is only declared in
`GitObjectsFactory.hpp`; its body is the dispatch of the section on the Object Factory:
from the format tag to `createObject` of the variant, an unrecognised tag failing with
the unknown-format error. -/
def create (dec : Decoders) (format data : Str) : Except GitError GitObject :=
  if format = "blob".toList then createObject (fun d => .ok d) GitObject.blob data
  else if format = "tree".toList then createObject dec.tree GitObject.tree data
  else if format = "commit".toList then createObject dec.commit GitObject.commit data
  else if format = "tag".toList then createObject dec.tag GitObject.tag data
  else .error (.runtime (unknownObjectFormat format))

/-- Modelled from the spec: `GitObject::write(object, persist)` is not in `src/`; it
returns the digest `hashOf object` of the encoding of the object and, when `persist`,
stores the object under that hash unless the hash is stored already. -/
def write (hashOf : GitObject → GitHash) (store : Store) (object : GitObject)
    (persist : Bool) : GitHash × Store :=
  (hashOf object,
    if persist ∧ store.find (hashOf object) = none then store ++ [(hashOf object, object)]
    else store)

/-- The result of a command that returns a hash and may write objects. -/
structure HashRun where
  store : Store
  result : Except Status GitHash

/-- The function `hashFile` (`main.cpp:24-32`). -/
def hashFile (dec : Decoders) (hashOf : GitObject → GitHash) (fs : FS) (store : Store)
    (path format : Str) (persist : Bool) : HashRun :=
  match readFile fs path with
  | .error e => ⟨store, .error (.threw e)⟩
  | .ok fileContent =>
    match create dec format fileContent with
    | .error e => ⟨store, .error (.threw e)⟩
    | .ok gitObject =>
      let r := write hashOf store gitObject persist
      ⟨r.2, .ok r.1⟩

/-! ## `createTree` -/

/-- The call `std::filesystem::directory_iterator(dirPath)`: the entries directly inside
the directory `dirPath`, each with its path `dirPath / name`; it throws when `dirPath` is
not a directory. -/
def directoryIterator (fs : FS) (dirPath : Str) : Except GitError (List (Str × Node)) :=
  match fs.resolve dirPath with
  | none =>
    .error (.runtime "directory iterator cannot open directory: No such file or directory".toList)
  | some k =>
    match fs.nodeAt k with
    | none =>
      .error (.runtime "directory iterator cannot open directory: No such file or directory".toList)
    | some (.file _) =>
      .error (.runtime "directory iterator cannot open directory: Not a directory".toList)
    | some .dir =>
      .ok (fs.nodes.filterMap (fun e =>
        match e.1.getLast? with
        | some name => if e.1 = k ++ [name] then some (pathJoin dirPath name, e.2) else none
        | none => none))

/-- The loop of `createTree` (`main.cpp:201-215`); `recur p store` is the recursive call
`createTree(p)`, `fileMode` is `GitTree::fileMode(dirEntry, format)`, `leaves` the vector
filled so far. -/
def treeEntries (dec : Decoders) (hashOf : GitObject → GitHash) (fileMode : Str → Node → Str → Str)
    (fs : FS) (recur : Str → Store → HashRun) (dirPath : Str) :
    List (Str × Node) → Store → List GitTreeLeaf → Store × Except Status (List GitTreeLeaf)
  | [], store, leaves => (store, .ok leaves)
  | (dirEntryPath, node) :: rest, store, leaves =>
    match node with
    | .file _ =>
      match hashFile dec hashOf fs store dirEntryPath "blob".toList true with
      | ⟨store1, .error s⟩ => (store1, .error s)
      | ⟨store1, .ok h⟩ =>
        treeEntries dec hashOf fileMode fs recur dirPath rest store1
          (leaves ++ [⟨fileMode dirEntryPath node "blob".toList, filename dirEntryPath, h⟩])
    | .dir =>
      if dirPath ≠ [] ∧ ¬ ".git".toList.isSuffixOf dirEntryPath then
        match recur dirEntryPath store with
        | ⟨store1, .error s⟩ => (store1, .error s)
        | ⟨store1, .ok h⟩ =>
          treeEntries dec hashOf fileMode fs recur dirPath rest store1
            (leaves ++ [⟨fileMode dirEntryPath node "tree".toList, dirEntryPath, h⟩])
      else treeEntries dec hashOf fileMode fs recur dirPath rest store leaves

/-- The function `createTree` (`main.cpp:198-220`). -/
def createTree (dec : Decoders) (hashOf : GitObject → GitHash) (fileMode : Str → Node → Str → Str)
    (fs : FS) : Nat → Str → Store → HashRun
  | 0, _, store => ⟨store, .error .outOfFuel⟩
  | fuel + 1, dirPath, store =>
    match directoryIterator fs dirPath with
    | .error e => ⟨store, .error (.threw e)⟩
    | .ok entries =>
      match treeEntries dec hashOf fileMode fs
          (fun p st => createTree dec hashOf fileMode fs fuel p st) dirPath entries store [] with
      | (store1, .error s) => ⟨store1, .error s⟩
      | (store1, .ok leaves) =>
        let r := write hashOf store1 (.tree leaves) true
        ⟨r.2, .ok r.1⟩

/-! ## Tags -/

/-- Whether `c` is a lower-case hexadecimal digit. -/
def isHexChar (c : Char) : Bool :=
  ('0' ≤ c && c ≤ '9') || ('a' ≤ c && c ≤ 'f')

/-- Whether `s` is the text of a hash: 40 hexadecimal characters. -/
def isHash40 (s : Str) : Bool :=
  s.length == 40 && s.all isHexChar

/-- The function `creatReference` (`main.cpp:158-163`); `repoFile` is
`GitRepository::repoFile(repo, ...)` for the repository that `findRoot` returned. -/
def creatReference (repoFile : List Str → Str) (name : Str) (hash : GitHash) (fs : FS) : FS :=
  writeToFile fs (repoFile ["refs".toList, "tags".toList, name]) (hash.data ++ [NL])

/-- The tag record built at `main.cpp:169-177`. -/
def tagMessage (tagName : Str) (objectHash : GitHash) : TagMessage where
  object := objectHash.data
  type := "commit".toList
  tag := tagName
  tagger := "Joe Doe <joedoe@email.com>".toList
  gpgsig := []
  message := "A tag generated by wyag, which won't let you customize the message!".toList

/-- The file system and the object store. -/
structure Disk where
  fs : FS
  store : Store

/-- The function `createTag` (`main.cpp:165-185`). -/
def createTag (hashOf : GitObject → GitHash) (repoFile : List Str → Str) (tagName : Str)
    (objectHash : GitHash) (createAssociativeTag : Bool) (d : Disk) : Disk :=
  if createAssociativeTag then
    let tag := GitObject.tag (tagMessage tagName objectHash)
    let r := write hashOf d.store tag true
    ⟨creatReference repoFile tagName r.1 d.fs, r.2⟩
  else
    ⟨creatReference repoFile tagName objectHash d.fs, d.store⟩

/-! ## `main` -/

/-- Everything a command can change: the file system, the object store, standard output. -/
structure World where
  fs : FS
  store : Store
  out : Str

/-- The parsed command line (`po::variables_map`): for each option, its value when given. -/
structure Options where
  help : Bool
  init : Option Str
  catFile : Option (List Str)
  hashFile : Option (List Str)
  log : Option Str
  lsTree : Option (List Str)
  checkout : Option (List Str)
  showRef : Option Str
  lsTag : Option Str
  tag : Option (List Str)
  revParse : Option (List Str)
  lsFiles : Option Str
  commit : Option Str

/-- The collaborators of `main.cpp` that are not in `src/`. -/
structure Env where
  /-- The text of `po::options_description`. -/
  desc : Str
  /-- The call `GitObject::findObject(name, format)`; `none` when no format is passed. -/
  findObject : Str → Option Str → Except GitError GitHash
  decodeDateIn : Str → Except GitError Str
  dec : Decoders
  hashOf : GitObject → GitHash
  fileMode : Str → Node → Str → Str
  repoFile : List Str → Str
  /-- The method `serialize()` of the variants other than blob. -/
  encode : GitObject → Str
  /-- The call `std::filesystem::absolute(p)`. -/
  absolute : Str → Str
  /-- The work tree of the repository that `findRoot` returns. -/
  workTree : Str
  /-- The command `init`, which creates a repository at a path. -/
  initRepository : Str → World → World × Status
  /-- The command `show-ref`. -/
  showRef : Str → World → World × Status
  /-- The command `ls-tag`. -/
  lsTag : World → World × Status
  /-- The command `ls-files`. -/
  listFiles : World → World × Status

/-- The method `serialize()`. -/
def serialize (env : Env) : GitObject → Str
  | .blob payload => payload
  | o => env.encode o

/-- The function `catFile` (`main.cpp:16-22`). -/
def catFile (env : Env) (objectFormat objectReference : Str) (w : World) : World × Status :=
  match env.findObject objectReference (some objectFormat) with
  | .error e => (w, .threw e)
  | .ok objectHash =>
    match read w.store objectHash with
    | .error e => (w, .threw e)
    | .ok object => (⟨w.fs, w.store, w.out ++ objectData (serialize env object)⟩, .done)

/-- The function `commit` (`main.cpp:222-232`). -/
def commit (env : Env) (fuel : Nat) (w : World) : World × Status :=
  if env.workTree = [] then
    (⟨w.fs, w.store, w.out ++ "There is nothing to commit".toList ++ [NL]⟩, .done)
  else
    match createTree env.dec env.hashOf env.fileMode w.fs fuel env.workTree w.store with
    | ⟨store1, .error s⟩ => (⟨w.fs, store1, w.out⟩, s)
    | ⟨store1, .ok h⟩ =>
      (⟨w.fs, store1, w.out ++ "Create tree object: ".toList ++ h.data ++ [NL]⟩, .done)

/-- The body of the `try` block of `main` (`main.cpp:306-390`): the first option present,
in the order of the tests, selects the command. -/
def runCommand (env : Env) (fuel : Nat) (vm : Options) (w : World) : World × Status :=
  match vm.init with
  | some pathToGitRepository => env.initRepository pathToGitRepository w
  | none =>
  match vm.catFile with
  | some args =>
    match args with
    | [a0, a1] => catFile env a0 a1 w
    | _ => (w, .done)
  | none =>
  match vm.hashFile with
  | some args =>
    match args with
    | [a0, a1] =>
      match hashFile env.dec env.hashOf w.fs w.store a0 a1 true with
      | ⟨store1, .error s⟩ => (⟨w.fs, store1, w.out⟩, s)
      | ⟨store1, .ok _⟩ => (⟨w.fs, store1, w.out⟩, .done)
    | _ => (w, .done)
  | none =>
  match vm.log with
  | some commitHash =>
    match env.findObject commitHash none with
    | .error e => (w, .threw e)
    | .ok object =>
      let r := displayLog env.decodeDateIn w.store fuel object w.out
      (⟨w.fs, w.store, r.out⟩, r.status)
  | none =>
  match vm.lsTree with
  | some args =>
    match args with
    | [] => (w, .undefined)
    | a0 :: more =>
      match env.findObject a0 (some "tree".toList) with
      | .error e => (w, .threw e)
      | .ok objectHash =>
        let recursive := decide (more.head? = some "r".toList)
        let r := listTree w.store fuel objectHash [] recursive w.out
        (⟨w.fs, w.store, r.out⟩, r.status)
  | none =>
  match vm.checkout with
  | some args =>
    match args with
    | [a0, a1] =>
      match env.findObject a0 none with
      | .error e => (w, .threw e)
      | .ok hash =>
        let r := checkout (fun n => env.findObject n none) w.store fuel hash (env.absolute a1) w.fs
        (⟨r.fs, w.store, w.out⟩, r.status)
    | _ => (w, .done)
  | none =>
  match vm.showRef with
  | some path => env.showRef path w
  | none =>
  match vm.lsTag with
  | some _ => env.lsTag w
  | none =>
  match vm.tag with
  | some args =>
    match args with
    | tagName :: a1 :: more =>
      match env.findObject a1 none with
      | .error e => (w, .threw e)
      | .ok objectHash =>
        let createAssociativeTag := decide (more = ["a".toList])
        let d := createTag env.hashOf env.repoFile tagName objectHash createAssociativeTag ⟨w.fs, w.store⟩
        (⟨d.fs, d.store, w.out⟩, .done)
    | _ => (w, .done)
  | none =>
  match vm.revParse with
  | some args =>
    match args with
    | [] => (w, .done)
    | objectName :: more =>
      match env.findObject objectName (some (more.head?.getD [])) with
      | .error e => (w, .threw e)
      | .ok h => (⟨w.fs, w.store, w.out ++ h.data ++ [NL]⟩, .done)
  | none =>
  match vm.lsFiles with
  | some _ => env.listFiles w
  | none =>
  match vm.commit with
  | some _ => commit env fuel w
  | none => (w, .done)

/-- How the process ends: with an exit status, or abnormally (an exception that no
handler catches, a failed assertion, undefined behaviour). -/
inductive Exit where
  | code (n : Nat)
  | abnormal
  | outOfFuel
  deriving DecidableEq, Repr

/-- The function `main` after the parsing of the command line (`main.cpp:300-395`). -/
def main (env : Env) (fuel : Nat) (argc : Nat) (vm : Options) (w : World) : World × Exit :=
  if vm.help ∨ argc < 2 then
    (⟨w.fs, w.store, w.out ++ env.desc ++ [NL]⟩, .code 1)
  else
    match runCommand env fuel vm w with
    | (w1, .done) => (w1, .code 0)
    | (w1, .threw (.runtime what)) => (⟨w1.fs, w1.store, w1.out ++ what ++ [NL]⟩, .code 0)
    | (w1, .outOfFuel) => (w1, .outOfFuel)
    | (w1, _) => (w1, .abnormal)

/-! ## Concrete stores -/

/-- A 40-character hexadecimal hash made of one repeated digit. -/
def hashOfDigit (c : Char) : GitHash := ⟨List.replicate 40 c⟩

/-- A store with the nesting `root / a / b / c.txt`. -/
def nestedStore : Store :=
  [ (hashOfDigit '1', .tree [⟨"040000".toList, "a".toList, hashOfDigit '2'⟩]),
    (hashOfDigit '2', .tree [⟨"040000".toList, "b".toList, hashOfDigit '3'⟩]),
    (hashOfDigit '3', .tree [⟨"100644".toList, "c.txt".toList, hashOfDigit '4'⟩]),
    (hashOfDigit '4', .blob "hi".toList) ]


/-- A work tree `/w` with one subdirectory `sub` that holds one file `f`. -/
def workFs : FS :=
  ⟨[], [ (["w".toList], .dir), (["w".toList, "sub".toList], .dir),
    (["w".toList, "sub".toList, "f".toList], .file "x".toList) ]⟩

/-- A store in which the hash `1111...` names a tree (with one blob entry). -/
def treeStore : Store :=
  [ (hashOfDigit '1', .tree [⟨"100644".toList, "f".toList, hashOfDigit '2'⟩]),
    (hashOfDigit '2', .blob "x".toList) ]

/-- A store with one parentless commit whose author line has no `>`. -/
def badAuthorStore : Store :=
  [ (hashOfDigit '1', .commit ⟨(hashOfDigit '2').data, [], "nobody".toList, "first".toList⟩) ]

/-- A date decoder that returns the text it is given. -/
def rawDate (s : Str) : Except GitError Str := .ok s

/-- A store with a history of two commits. -/
def historyStore : Store :=
  [ (hashOfDigit '1', .commit ⟨(hashOfDigit '3').data, (hashOfDigit '2').data,
      "Ann <a@x> 1 +0000".toList, "second".toList⟩),
    (hashOfDigit '2', .commit ⟨(hashOfDigit '3').data, [],
      "Bob <b@x> 0 +0000".toList, "first".toList⟩) ]

/-- An environment in which a 40-character name is taken as the hash it spells and the
commands that are not in `src/` do nothing. -/
def literalEnv : Env where
  desc := "Allowed options".toList
  findObject := fun name _ =>
    if isHash40 name then .ok ⟨name⟩ else .error (.runtime ("No such reference: ".toList ++ name))
  decodeDateIn := rawDate
  dec := ⟨fun _ => .ok [], fun _ => .error (.runtime "Malformed commit".toList),
    fun _ => .error (.runtime "Malformed tag".toList)⟩
  hashOf := fun _ => hashOfDigit '0'
  fileMode := fun _ _ _ => "100644".toList
  repoFile := fun parts => ".git".toList ++ (parts.map (fun x => '/' :: x)).flatten
  encode := fun _ => []
  absolute := fun x => x
  workTree := "/w".toList
  initRepository := fun _ w => (w, .done)
  showRef := fun _ w => (w, .done)
  lsTag := fun w => (w, .done)
  listFiles := fun w => (w, .done)

/-- The command line with no option. -/
def noOptions : Options :=
  ⟨false, none, none, none, none, none, none, none, none, none, none, none, none⟩

/-- The command line `--checkout 1111... /out`. -/
def checkoutOptions : Options :=
  ⟨false, none, none, none, none, none, some [List.replicate 40 '1', "/out".toList],
    none, none, none, none, none, none⟩

/-- The format tags of the four variants. -/
def knownFormats : List Str :=
  ["blob".toList, "tree".toList, "commit".toList, "tag".toList]

/-- A file system in which `/out` is a regular file. -/
def outIsFile : FS := ⟨[], [(["out".toList], .file "x".toList)]⟩

/-- A file system with nothing but the root. -/
def emptyFs : FS := ⟨[], []⟩

theorem cstr_of_no_zero (s : Str) (h : NUL ∉ s) : cstr s = s := by
  induction s with
  | nil => rfl
  | cons c cs ih =>
    have hc : c ≠ NUL := fun e => h (e ▸ List.mem_cons_self _ _)
    have hcs : NUL ∉ cs := fun m => h (List.mem_cons_of_mem _ m)
    have ih1 := ih hcs
    have hb : (c != NUL) = true := by simpa using hc
    unfold cstr at ih1 ⊢
    rw [List.takeWhile_cons, hb]
    simp [ih1]

/-! ### File system facts -/

theorem nodeOf_putNode_same (t : List (Key × Node)) (k : Key) (n : Node) :
    nodeOf (putNode t k n) k = some n := by
  induction t with
  | nil => simp [putNode, nodeOf]
  | cons e rest ih =>
    obtain ⟨k1, m⟩ := e
    by_cases hk : k1 = k
    · simp [putNode, nodeOf, hk]
    · simp [putNode, nodeOf, hk, ih]

/-- What `writeToFile` stores at a path is what is found there afterwards. -/
theorem FS.find_set (fs : FS) (p : Str) (n : Node) : (fs.set p n).find p = some n := by
  simp [FS.set, FS.find, FS.start, nodeOf_putNode_same]

theorem findLastOfAux_absent (c : Char) (s : Str) (i : Nat) (acc : Option Nat)
    (h : c ∉ s) : findLastOfAux c s i acc = acc := by
  induction s generalizing i acc with
  | nil => rfl
  | cons x xs ih =>
    have hx : x ≠ c := fun e => h (e ▸ List.mem_cons_self _ _)
    have hxs : c ∉ xs := fun m => h (List.mem_cons_of_mem _ m)
    simp [findLastOfAux, hx, ih _ _ hxs]

theorem findLastOfAux_last (c : Char) (pre suf : Str) (i : Nat) (acc : Option Nat)
    (h : c ∉ suf) : findLastOfAux c (pre ++ c :: suf) i acc = some (i + pre.length) := by
  induction pre generalizing i acc with
  | nil => simp [findLastOfAux, findLastOfAux_absent c suf _ _ h]
  | cons x xs ih =>
    show findLastOfAux c (xs ++ c :: suf) (i + 1) (if x = c then some i else acc) =
      some (i + (xs.length + 1))
    rw [ih]
    congr 1
    omega

/-- An author line without `>` raises the malformed-date error. -/
theorem splitAuthor_no_angle_bracket (author : Str) (h : '>' ∉ author) :
    splitAuthor author = .error (.runtime (malformedDate author)) := by
  simp [splitAuthor, findLastOf, findLastOfAux_absent _ _ _ _ h]

/-- An author line whose last `>` is followed by a separator character `sep` and the text
`rest` splits into the prefix up to and including that `>`, and `rest`. -/
theorem splitAuthor_ok (pre rest : Str) (sep : Char) (h : '>' ∉ sep :: rest) :
    splitAuthor (pre ++ '>' :: sep :: rest) = .ok (pre ++ ['>'], rest) := by
  have hlen : ¬ (pre.length + 2 > (pre ++ '>' :: sep :: rest).length) := by
    simp
  have hdrop : (pre ++ '>' :: sep :: rest).drop (pre.length + 2) = rest := by
    rw [List.drop_append_eq_append_drop]
    simp
  have htake : (pre ++ '>' :: sep :: rest).take (pre.length + 1) = pre ++ ['>'] := by
    rw [List.take_append_eq_append_take]
    simp
  simp only [splitAuthor, findLastOf, findLastOfAux_last _ _ _ _ _ h, Nat.zero_add, substr,
    substrFrom, List.drop_zero, htake, hdrop, if_neg hlen]
  simp

/-- An author line that ends with its last `>` raises `std::out_of_range`. -/
theorem splitAuthor_out_of_range (pre : Str) :
    splitAuthor (pre ++ ['>']) = .error .outOfRange := by
  have h : '>' ∉ ([] : Str) := by simp
  simp [splitAuthor, findLastOf, findLastOfAux_last _ _ _ _ _ h, substr, substrFrom]

/-- What `renderCommit` returns when it returns: the text of the commit with its own
hash, the author and date of its author line, and its message. -/
theorem renderCommit_ok (decodeDateIn : Str → Except GitError Str) (hash : GitHash)
    (cm : CommitMessage) (t : Str) (h : renderCommit decodeDateIn hash cm = .ok t) :
    ∃ author dateText date, splitAuthor cm.author = .ok (author, dateText) ∧
      decodeDateIn dateText = .ok date ∧ t = entryText hash author date cm.message := by
  unfold renderCommit at h
  cases hs : splitAuthor cm.author with
  | error e => simp [hs] at h
  | ok p =>
    obtain ⟨author, dateText⟩ := p
    cases hd : decodeDateIn dateText with
    | error e => simp [hs, hd] at h
    | ok date =>
      simp only [hs, hd, Except.ok.injEq] at h
      exact ⟨author, dateText, date, rfl, hd, h.symm⟩

/-! ### C8 -/

/-- C8 (fails on the code): the author line `Joe <j@e>` contains a `>`, and its split
raises `std::out_of_range`: `substr(authorEnds + 2)` starts past the end of the line. -/
theorem splitAuthor_trailing_angle_bracket :
    findLastOf "Joe <j@e>".toList '>' = some 8 ∧
    splitAuthor "Joe <j@e>".toList = .error .outOfRange := by
  decide

/-! ### C10 -/

/-- C10 (fails on the code): listing `nestedStore` recursively from its root with an empty
`parentDir` prints `c.txt`, which lies in `a/b`, under the path `b/c.txt`: the
recursive call passes the name of the subdirectory alone, not `parentDir` joined with it. -/
theorem listTree_nested_path_drops_ancestor :
    listTree nestedStore 4 (hashOfDigit '1') [] true [] =
      ⟨"100644 blob ".toList ++ List.replicate 40 '4' ++ [TAB] ++ "b/c.txt".toList ++ [NL], .done⟩ ∧
    pathJoin (pathJoin (pathJoin [] "a".toList) "b".toList) "c.txt".toList = "a/b/c.txt".toList ∧
    "b/c.txt".toList ≠ "a/b/c.txt".toList := by
  decide

/-! ### C2 -/

/-- C2 (fails on the code): for the work tree `/w` of `workFs`, whatever the digest and the
file modes, `createTree` returns the hash of a tree whose one entry, for the
subdirectory `sub`, is named `/w/sub`, the whole path of the subdirectory, which has
separators; the entry for the regular file inside `sub` is named `f`. -/
theorem createTree_names_subdirectory_by_path (dec : Decoders) (hashOf : GitObject → GitHash)
    (fileMode : Str → Node → Str → Str) :
    (createTree dec hashOf fileMode workFs 2 "/w".toList []).result =
      .ok (hashOf (.tree [⟨fileMode "/w/sub".toList .dir "tree".toList, "/w/sub".toList,
        hashOf (.tree [⟨fileMode "/w/sub/f".toList (.file "x".toList) "blob".toList, "f".toList,
          hashOf (.blob "x".toList)⟩])⟩])) ∧
    '/' ∈ "/w/sub".toList ∧ filename "/w/sub".toList = "sub".toList := by
  refine ⟨?_, by decide, by decide⟩
  rfl

/-! ### C4 -/

/-- C4 (fails on the code): tagging, in annotated mode, the hash `1111...`, which names a
tree in `treeStore`, writes a tag object whose target format is `commit`, not `tree`. -/
theorem createTag_target_format_is_commit (hashOf : GitObject → GitHash)
    (repoFile : List Str → Str) (fs : FS) :
    (read treeStore (hashOfDigit '1')).map GitObject.format = .ok "tree".toList ∧
    (createTag hashOf repoFile "v1".toList (hashOfDigit '1') true ⟨fs, treeStore⟩).store =
      (write hashOf treeStore
        (.tag ⟨List.replicate 40 '1', "commit".toList, "v1".toList,
          "Joe Doe <joedoe@email.com>".toList, [],
          "A tag generated by wyag, which won't let you customize the message!".toList⟩) true).2 ∧
    "commit".toList ≠ "tree".toList := by
  refine ⟨by decide, rfl, by decide⟩

/-! ### C3 -/

/-- When the selected command raises a `std::runtime_error`, `main` streams its message
and returns 0. -/
theorem main_of_runtime_error (env : Env) (fuel argc : Nat) (vm : Options) (w w1 : World)
    (what : Str) (hcmd : ¬ (vm.help ∨ argc < 2))
    (hrun : runCommand env fuel vm w = (w1, .threw (.runtime what))) :
    main env fuel argc vm w = (⟨w1.fs, w1.store, w1.out ++ what ++ [NL]⟩, .code 0) := by
  simp only [main, if_neg hcmd, hrun]

/-- The only non-zero exit status of `main` is the 1 of the help text. -/
theorem main_exit_code (env : Env) (fuel argc : Nat) (vm : Options) (w : World) (n : Nat)
    (h : (main env fuel argc vm w).2 = .code n) :
    n = 0 ∨ (n = 1 ∧ (vm.help ∨ argc < 2)) := by
  unfold main at h
  by_cases hc : vm.help ∨ argc < 2
  · rw [if_pos hc] at h
    simp only [Exit.code.injEq] at h
    exact Or.inr ⟨h.symm, hc⟩
  · rw [if_neg hc] at h
    left
    split at h <;> simp_all

/-- C3 (fails on the code): the command `--checkout 1111... /out`, when `/out` is a regular
file, fails with the bad-destination error; `main` catches it, prints its message, and
returns the exit status 0. -/
theorem main_returns_zero_on_error :
    outIsFile.find "/out".toList = some (.file "x".toList) ∧
    runCommand literalEnv 3 checkoutOptions ⟨outIsFile, treeStore, []⟩ =
      (⟨outIsFile, treeStore, []⟩, .threw (.runtime "/out, is not a directory!".toList)) ∧
    main literalEnv 3 3 checkoutOptions ⟨outIsFile, treeStore, []⟩ =
      (⟨outIsFile, treeStore, "/out, is not a directory!".toList ++ [NL]⟩, .code 0) := by
  refine ⟨rfl, rfl, rfl⟩

/-! ### C5 -/

/-- C5: after `createTag`, the file `refs/tags/<name>` of the control directory holds a
40-hex-character hash followed by one newline. In lightweight mode the hash is the given
object hash and the object store is unchanged; in annotated mode it is the hash that
writing the new tag object returned. (Hashes are 40 hexadecimal characters: the given
one, and those the digest produces.) -/
theorem createTag_reference_file (hashOf : GitObject → GitHash) (repoFile : List Str → Str)
    (tagName : Str) (objectHash : GitHash) (annotated : Bool) (d : Disk)
    (hobj : isHash40 objectHash.data = true)
    (hdigest : ∀ o, isHash40 (hashOf o).data = true) :
    ∃ hash : Str, isHash40 hash = true ∧
      (createTag hashOf repoFile tagName objectHash annotated d).fs.find
        (repoFile ["refs".toList, "tags".toList, tagName]) = some (.file (hash ++ [NL])) ∧
      (annotated = false →
        hash = objectHash.data ∧
        (createTag hashOf repoFile tagName objectHash annotated d).store = d.store) ∧
      (annotated = true →
        hash = (write hashOf d.store (.tag (tagMessage tagName objectHash)) true).1.data ∧
        (createTag hashOf repoFile tagName objectHash annotated d).store =
          (write hashOf d.store (.tag (tagMessage tagName objectHash)) true).2) := by
  cases annotated with
  | false =>
    refine ⟨objectHash.data, hobj, ?_, fun _ => ⟨rfl, rfl⟩, fun h => by simp at h⟩
    simp [createTag, creatReference, writeToFile, FS.find_set]
  | true =>
    refine ⟨(hashOf (.tag (tagMessage tagName objectHash))).data, hdigest _, ?_,
      fun h => by simp at h, fun _ => ⟨rfl, rfl⟩⟩
    simp [createTag, creatReference, writeToFile, FS.find_set, write]

theorem createTag_reference_file_witness :
    ∃ hash : Str, isHash40 hash = true ∧
      (createTag (fun _ => hashOfDigit 'a') literalEnv.repoFile "v1".toList (hashOfDigit '1')
          true ⟨emptyFs, treeStore⟩).fs.find
        (literalEnv.repoFile ["refs".toList, "tags".toList, "v1".toList]) =
          some (.file (hash ++ [NL])) ∧
      (true = false →
        hash = (hashOfDigit '1').data ∧
        (createTag (fun _ => hashOfDigit 'a') literalEnv.repoFile "v1".toList (hashOfDigit '1')
          true ⟨emptyFs, treeStore⟩).store = treeStore) ∧
      (true = true →
        hash = (write (fun _ => hashOfDigit 'a') treeStore
          (.tag (tagMessage "v1".toList (hashOfDigit '1'))) true).1.data ∧
        (createTag (fun _ => hashOfDigit 'a') literalEnv.repoFile "v1".toList (hashOfDigit '1')
          true ⟨emptyFs, treeStore⟩).store =
          (write (fun _ => hashOfDigit 'a') treeStore
            (.tag (tagMessage "v1".toList (hashOfDigit '1'))) true).2) :=
  createTag_reference_file (fun _ => hashOfDigit 'a') literalEnv.repoFile "v1".toList
    (hashOfDigit '1') true ⟨emptyFs, treeStore⟩ (by decide)
    (fun _ => (by decide : isHash40 (hashOfDigit 'a').data = true))

/-! ### C7 -/

/-- C6: `GitObjectFactory::create` dispatches on the closed tag set. For `blob`, `tree`,
`commit` and `tag` the result is the object of that variant that deserializing the data
gives (a failure of the deserializer is passed on); an object that `create` returns has
the given format; every other format string fails with the unknown-format error. -/
theorem create_on_closed_tag_set (dec : Decoders) (format data : Str) :
    create dec "blob".toList data = .ok (.blob data) ∧
    create dec "tree".toList data = (dec.tree data).map GitObject.tree ∧
    create dec "commit".toList data = (dec.commit data).map GitObject.commit ∧
    create dec "tag".toList data = (dec.tag data).map GitObject.tag ∧
    (∀ o, create dec format data = .ok o → format ∈ knownFormats ∧ o.format = format) ∧
    (format ∉ knownFormats →
      create dec format data = .error (.runtime (unknownObjectFormat format))) := by
  have hmap : ∀ {α : Type} (f : Str → Except GitError α) (wrap : α → GitObject),
      createObject f wrap data = (f data).map wrap := by
    intro α f wrap
    unfold createObject
    cases f data <;> rfl
  refine ⟨rfl, ?_, ?_, ?_, ?_, ?_⟩
  · simp [create, hmap]
  · simp [create, hmap]
  · simp [create, hmap]
  · intro o ho
    unfold create at ho
    split at ho
    · next h =>
      simp only [createObject, Except.ok.injEq] at ho
      subst ho; subst h
      exact ⟨by simp [knownFormats], rfl⟩
    · split at ho
      · next h =>
        rw [hmap] at ho
        cases hd : dec.tree data with
        | error e => simp [hd, Except.map] at ho
        | ok x =>
          simp only [hd, Except.map, Except.ok.injEq] at ho
          subst ho; subst h
          exact ⟨by simp [knownFormats], rfl⟩
      · split at ho
        · next h =>
          rw [hmap] at ho
          cases hd : dec.commit data with
          | error e => simp [hd, Except.map] at ho
          | ok x =>
            simp only [hd, Except.map, Except.ok.injEq] at ho
            subst ho; subst h
            exact ⟨by simp [knownFormats], rfl⟩
        · split at ho
          · next h =>
            rw [hmap] at ho
            cases hd : dec.tag data with
            | error e => simp [hd, Except.map] at ho
            | ok x =>
              simp only [hd, Except.map, Except.ok.injEq] at ho
              subst ho; subst h
              exact ⟨by simp [knownFormats], rfl⟩
          · simp at ho
  · intro hn
    simp only [knownFormats, List.mem_cons, List.mem_singleton, not_or, List.not_mem_nil,
      or_false] at hn
    unfold create
    rw [if_neg hn.1, if_neg hn.2.1, if_neg hn.2.2.1, if_neg hn.2.2.2]

theorem create_on_closed_tag_set_witness :
    (create literalEnv.dec "tree".toList [] = .ok (.tree []) →
      "tree".toList ∈ knownFormats ∧ (GitObject.tree []).format = "tree".toList) ∧
    create literalEnv.dec "blub".toList "x".toList =
      .error (.runtime (unknownObjectFormat "blub".toList)) :=
  ⟨(create_on_closed_tag_set literalEnv.dec "tree".toList []).2.2.2.2.1 (.tree []),
   (create_on_closed_tag_set literalEnv.dec "blub".toList "x".toList).2.2.2.2.2 (by decide)⟩

/-! ### C9 -/

/-- C9 as stated fails: in `badAuthorStore` the commit `1111...` has an empty parent, so the
chain from it reaches the root after 0 steps, but its author line `nobody` has no `>`:
with any fuel `displayLog` prints nothing and never finishes normally, and with fuel it
raises the malformed-date error. -/
theorem displayLog_malformed_author_counterexample :
    ParentChain badAuthorStore (hashOfDigit '1')
      [(hashOfDigit '1', ⟨(hashOfDigit '2').data, [], "nobody".toList, "first".toList⟩)] ∧
    (∀ fuel, (displayLog rawDate badAuthorStore fuel (hashOfDigit '1') []).status ≠ .done ∧
      (displayLog rawDate badAuthorStore fuel (hashOfDigit '1') []).out = []) ∧
    displayLog rawDate badAuthorStore 1 (hashOfDigit '1') [] =
      ⟨[], .threw (.runtime (malformedDate "nobody".toList))⟩ := by
  refine ⟨ParentChain.root _ _ (by decide) rfl, ?_, by decide⟩
  intro fuel
  cases fuel with
  | zero => exact ⟨by decide, rfl⟩
  | succ n =>
    have h : displayLog rawDate badAuthorStore (n + 1) (hashOfDigit '1') [] =
        ⟨[], .threw (.runtime (malformedDate "nobody".toList))⟩ := rfl
    rw [h]
    exact ⟨by decide, rfl⟩

/-- The text of a hash has no zero byte. -/
theorem cstr_of_hash (s : Str) (h : isHash40 s = true) : cstr s = s := by
  apply cstr_of_no_zero
  intro hmem
  simp only [isHash40, Bool.and_eq_true, List.all_eq_true] at h
  have hz := h.2 NUL hmem
  revert hz
  decide

/-- A commit whose hash is 40 hexadecimal characters, whose author line is `pre`, `>`, one
separator character and a date text, with no `>` after that one, and whose date text
decodes to `date`, is rendered as the four lines of its hash, of the author line up to
and including the `>`, of the decoded date, and of its message. -/
theorem renderCommit_of_parts (decodeDateIn : Str → Except GitError Str) (hash : GitHash)
    (cm : CommitMessage) (pre dateText date : Str) (sep : Char)
    (hhash : isHash40 hash.data = true)
    (hauthor : cm.author = pre ++ '>' :: sep :: dateText)
    (hlast : '>' ∉ sep :: dateText)
    (hdate : decodeDateIn dateText = .ok date) :
    renderCommit decodeDateIn hash cm =
      .ok ("commit: ".toList ++ hash.data ++ [NL] ++ "Author: ".toList ++ (pre ++ ['>']) ++ [NL] ++
        "Date:   ".toList ++ date ++ [NL] ++ [NL, TAB] ++ cm.message ++ [NL]) := by
  simp only [renderCommit, hauthor, splitAuthor_ok pre dateText sep hlast, hdate, entryText,
    cstr_of_hash _ hhash]

/-- C9 (amended): when following the parent field from `h` gives the commits `cs`, the last
one with an empty parent, and every commit of `cs` has a hash of 40 hexadecimal
characters and an author line made of the text `a.1` that ends with the last `>` of the
line, one separator character, and a date text that decodes to `a.2`, then `displayLog`
with fuel at least the length of `cs` finishes normally and has streamed, after what was
streamed before, exactly the commits of `cs`, each once and in order, each as the lines
`commit: <hash>`, `Author: <a.1>`, `Date:   <a.2>`, an empty line, and a tab and the
message. -/
theorem displayLog_prints_history (decodeDateIn : Str → Except GitError Str) (store : Store)
    (h : GitHash) (cs : List (GitHash × CommitMessage)) (shown : List (Str × Str))
    (hchain : ParentChain store h cs)
    (hlines : List.Forall₂ (fun (p : GitHash × CommitMessage) (a : Str × Str) =>
      isHash40 p.1.data = true ∧ a.1.getLast? = some '>' ∧
      ∃ sep dateText, p.2.author = a.1 ++ sep :: dateText ∧ '>' ∉ sep :: dateText ∧
        decodeDateIn dateText = .ok a.2) cs shown)
    (fuel : Nat) (hfuel : cs.length ≤ fuel) (out : Str) :
    displayLog decodeDateIn store fuel h out =
      ⟨out ++ (List.zipWith (fun (p : GitHash × CommitMessage) (a : Str × Str) =>
          "commit: ".toList ++ p.1.data ++ [NL] ++ "Author: ".toList ++ a.1 ++ [NL] ++
          "Date:   ".toList ++ a.2 ++ [NL] ++ [NL, TAB] ++ p.2.message ++ [NL]) cs shown).flatten,
        .done⟩ := by
  have hrender : ∀ (p : GitHash × CommitMessage) (a : Str × Str),
      (isHash40 p.1.data = true ∧ a.1.getLast? = some '>' ∧
        ∃ sep dateText, p.2.author = a.1 ++ sep :: dateText ∧ '>' ∉ sep :: dateText ∧
          decodeDateIn dateText = .ok a.2) →
      renderCommit decodeDateIn p.1 p.2 =
        .ok ("commit: ".toList ++ p.1.data ++ [NL] ++ "Author: ".toList ++ a.1 ++ [NL] ++
          "Date:   ".toList ++ a.2 ++ [NL] ++ [NL, TAB] ++ p.2.message ++ [NL]) := by
    intro p a hp
    obtain ⟨hh, hl, sep, dateText, ha, hn, hd⟩ := hp
    have hsplit : a.1.dropLast ++ ['>'] = a.1 := List.dropLast_append_getLast? _ hl
    have ha2 : p.2.author = a.1.dropLast ++ '>' :: sep :: dateText := by
      rw [ha]
      conv_lhs => rw [← hsplit]
      simp
    have := renderCommit_of_parts decodeDateIn p.1 p.2 a.1.dropLast dateText a.2 sep hh ha2 hn hd
    rw [hsplit] at this
    exact this
  induction hchain generalizing shown fuel out with
  | root h cm hread hparent =>
    cases hlines with
    | cons ht hrest =>
      cases hrest
      cases fuel with
      | zero => simp at hfuel
      | succ n =>
        have hr := hrender _ _ ht
        simp only at hr
        simp [displayLog, hread, hr, hparent]
  | step h cm cs hread hparent _ ih =>
    cases hlines with
    | cons ht hrest =>
      cases fuel with
      | zero => simp at hfuel
      | succ n =>
        have hr := hrender _ _ ht
        simp only at hr
        have hn : cs.length ≤ n := by simpa using hfuel
        have hne : cm.parent.isEmpty = false := by
          cases hp : cm.parent with
          | nil => exact absurd hp hparent
          | cons _ _ => rfl
        simp [displayLog, hread, hr, hne, ih _ hrest n hn, List.append_assoc]

theorem displayLog_prints_history_witness :
    displayLog rawDate historyStore 2 (hashOfDigit '1') [] =
      ⟨"commit: ".toList ++ List.replicate 40 '1' ++ [NL] ++
        "Author: Ann <a@x>".toList ++ [NL] ++
        "Date:   1 +0000".toList ++ [NL] ++
        [NL, TAB] ++ "second".toList ++ [NL] ++
        ("commit: ".toList ++ List.replicate 40 '2' ++ [NL] ++
        "Author: Bob <b@x>".toList ++ [NL] ++
        "Date:   0 +0000".toList ++ [NL] ++
        [NL, TAB] ++ "first".toList ++ [NL]), .done⟩ :=
  displayLog_prints_history rawDate historyStore (hashOfDigit '1')
    [(hashOfDigit '1', ⟨(hashOfDigit '3').data, (hashOfDigit '2').data,
        "Ann <a@x> 1 +0000".toList, "second".toList⟩),
     (hashOfDigit '2', ⟨(hashOfDigit '3').data, [], "Bob <b@x> 0 +0000".toList, "first".toList⟩)]
    [("Ann <a@x>".toList, "1 +0000".toList), ("Bob <b@x>".toList, "0 +0000".toList)]
    (ParentChain.step _ _ _ (by decide) (by decide) (ParentChain.root _ _ (by decide) rfl))
    (List.Forall₂.cons ⟨by decide, by decide, ' ', "1 +0000".toList, by decide, by decide, by decide⟩
      (List.Forall₂.cons ⟨by decide, by decide, ' ', "0 +0000".toList, by decide, by decide, by decide⟩
        List.Forall₂.nil))
    2 (by decide) []

end Waygit
